import Mathlib

/- Verification of the bounded tabular query tool in
   libs/deepagents/examples/rca/tools.py: a shallow embedding of its pure
   logic (token estimation, size-budget guard, JSON serialization and
   re-parsing, datetime normalization, relation naming, file validation,
   and the query tool's control flow), with theorems checking the
   documented behaviour.  Filesystem state and the embedded query engine
   are modelled as explicit oracle parameters; Python floats are modelled
   as exact rationals; Python exceptions are modelled with Except-style
   values. -/

namespace RcaTools

/- ===== basic text utilities ===== -/

/- Decimal digit characters, as Python's str(int) produces them. -/
def digitChar (n : Nat) : Char := Char.ofNat (48 + n)

/- Decimal digits of a natural number, most significant first.  The first
   argument is fuel; any fuel above the number itself is enough, and
   natReprL below always supplies that much. -/
def natDigitsAux : Nat → Nat → List Char
  | 0, _ => []
  | fuel + 1, n => if n < 10 then [digitChar n] else natDigitsAux fuel (n / 10) ++ [digitChar (n % 10)]

def natReprL (n : Nat) : List Char := natDigitsAux (n + 1) n

/- Model of Python str(n) for a natural number n. -/
def natRepr (n : Nat) : String := String.mk (natReprL n)

/- Model of Python str(n) for an integer (used by json.dumps for ints). -/
def intReprL (n : Int) : List Char := if n < 0 then '-' :: natReprL n.natAbs else natReprL n.natAbs

/- Left pad with zeros to the given width, as %0Nd formatting does. -/
def padZeros (w : Nat) (s : List Char) : List Char := List.replicate (w - s.length) '0' ++ s

/- A single-quote character as a one-character string. -/
def sq : String := String.mk ['\x27']

/- Does the first list occur as a leading segment of the second? -/
def startsWithL : List Char → List Char → Bool
  | [], _ => true
  | _ :: _, [] => false
  | a :: ra, b :: rb => a == b && startsWithL ra rb

/- Model of the Python substring test (needle in haystack). -/
def containsSub (needle : List Char) : List Char → Bool
  | [] => startsWithL needle []
  | c :: rest => startsWithL needle (c :: rest) || containsSub needle rest

/- Model of str.lower for the ASCII error messages it is applied to
   (Char.toLower lowercases exactly the ASCII uppercase letters). -/
def toLowerL (l : List Char) : List Char := l.map Char.toLower

/- ===== Python values and _serialize_datetime ===== -/

/- Model of a Python datetime.datetime value (tools.py only ever inspects
   it through isoformat). -/
structure PyDateTime where
  year : Nat
  month : Nat
  day : Nat
  hour : Nat
  minute : Nat
  second : Nat
  microsecond : Nat
deriving DecidableEq, Repr

/- Model of datetime.isoformat(): YYYY-MM-DDTHH:MM:SS with a .ffffff
   microsecond part exactly when the microsecond field is nonzero. -/
def isoformat (d : PyDateTime) : String :=
  String.mk (padZeros 4 (natReprL d.year) ++ '-' :: padZeros 2 (natReprL d.month) ++
    '-' :: padZeros 2 (natReprL d.day) ++ 'T' :: padZeros 2 (natReprL d.hour) ++
    ':' :: padZeros 2 (natReprL d.minute) ++ ':' :: padZeros 2 (natReprL d.second) ++
    (if d.microsecond = 0 then [] else '.' :: padZeros 6 (natReprL d.microsecond)))

/- Model of a Python datetime.date value: a temporal type that is NOT an
   instance of datetime.datetime (duckdb returns it for DATE columns). -/
structure PyDate where
  year : Nat
  month : Nat
  day : Nat
deriving DecidableEq, Repr

/- Model of a Python datetime.time value: a temporal type that is NOT an
   instance of datetime.datetime (duckdb returns it for TIME columns). -/
structure PyTime where
  hour : Nat
  minute : Nat
  second : Nat
  microsecond : Nat
deriving DecidableEq, Repr

/- Model of the Python values flowing through tools.py: scalars, the three
   temporal types, dicts and lists, and popaque for the other cell objects
   duckdb can return that json.dumps refuses to serialize (Decimal, bytes,
   UUID, ...), identified by a tag naming the type.  Dicts and lists are
   encoded as their own cons chains (pdictCons/pdictNil, plistCons/
   plistNil) so that every function on them is plain structural
   recursion. -/
inductive PyObj where
  | pdatetime (d : PyDateTime)
  | pdate (d : PyDate)
  | ptime (t : PyTime)
  | pstr (s : String)
  | pint (n : Int)
  | pbool (b : Bool)
  | pnone
  | popaque (tag : String)
  | pdictNil
  | pdictCons (k : String) (v : PyObj) (rest : PyObj)
  | plistNil
  | plistCons (v : PyObj) (rest : PyObj)
deriving DecidableEq, Repr

/- Build a plist chain from a Lean list. -/
def listToPy : List PyObj → PyObj
  | [] => PyObj.plistNil
  | v :: rest => PyObj.plistCons v (listToPy rest)

/- Build a pdict chain from a Lean association list. -/
def dictToPy : List (String × PyObj) → PyObj
  | [] => PyObj.pdictNil
  | (k, v) :: rest => PyObj.pdictCons k v (dictToPy rest)

/- Model of tools.py _serialize_datetime: datetimes become their isoformat
   strings, dicts and lists are rewritten recursively, anything else is
   returned unchanged. -/
def serialize_datetime : PyObj → PyObj
  | PyObj.pdatetime d => PyObj.pstr (isoformat d)
  | PyObj.pdictCons k v rest => PyObj.pdictCons k (serialize_datetime v) (serialize_datetime rest)
  | PyObj.plistCons v rest => PyObj.plistCons (serialize_datetime v) (serialize_datetime rest)
  | x => x

/- Whether a value contains a datetime.datetime anywhere (the only type
   _serialize_datetime's isinstance check converts). -/
def containsDatetime : PyObj → Bool
  | PyObj.pdatetime _ => true
  | PyObj.pdictCons _ v rest => containsDatetime v || containsDatetime rest
  | PyObj.plistCons v rest => containsDatetime v || containsDatetime rest
  | _ => false

/- Whether a value contains any temporal value (datetime.datetime,
   datetime.date or datetime.time) anywhere. -/
def containsTemporal : PyObj → Bool
  | PyObj.pdatetime _ => true
  | PyObj.pdate _ => true
  | PyObj.ptime _ => true
  | PyObj.pdictCons _ v rest => containsTemporal v || containsTemporal rest
  | PyObj.plistCons v rest => containsTemporal v || containsTemporal rest
  | _ => false

/- Whether a value contains anything json.dumps refuses to serialize
   (datetime, date, time, or an opaque cell such as Decimal/bytes/UUID). -/
def containsNonSerializable : PyObj → Bool
  | PyObj.pdatetime _ => true
  | PyObj.pdate _ => true
  | PyObj.ptime _ => true
  | PyObj.popaque _ => true
  | PyObj.pdictCons _ v rest => containsNonSerializable v || containsNonSerializable rest
  | PyObj.plistCons v rest => containsNonSerializable v || containsNonSerializable rest
  | _ => false

/- Length of a plist chain (len of the Python list). -/
def pyLen : PyObj → Nat
  | PyObj.plistCons _ rest => pyLen rest + 1
  | _ => 0

/- First n items of a plist chain (the slice rows[:n] for n below len). -/
def pyTake : Nat → PyObj → PyObj
  | 0, _ => PyObj.plistNil
  | n + 1, PyObj.plistCons v rest => PyObj.plistCons v (pyTake n rest)
  | _ + 1, x => x

/- Python dict insertion: an existing key keeps its position and gets the
   new value, a new key is appended at the end. -/
def dictSet (k : String) (v : PyObj) : PyObj → PyObj
  | PyObj.pdictNil => PyObj.pdictCons k v PyObj.pdictNil
  | PyObj.pdictCons k2 v2 rest =>
    if k2 = k then PyObj.pdictCons k2 v rest else PyObj.pdictCons k2 v2 (dictSet k v rest)
  | x => x

/- Model of dict(zip(columns, row)) from tools.py. -/
def zipToDict (columns : List String) (row : List PyObj) : PyObj :=
  (List.zip columns row).foldl (fun acc p => dictSet p.1 p.2 acc) PyObj.pdictNil

/- ===== json.dumps (ensure_ascii=False, indent=2) ===== -/

def hexDigitChar (n : Nat) : Char := if n < 10 then digitChar n else Char.ofNat (87 + n)

/- JSON string escaping as json.dumps with ensure_ascii=False performs it:
   quote, backslash and the named control escapes, \u00xx for the other
   control characters, everything else kept verbatim. -/
def escapeChar (c : Char) : List Char :=
  if c = '"' then ['\\', '"']
  else if c = '\\' then ['\\', '\\']
  else if c = '\n' then ['\\', 'n']
  else if c = '\r' then ['\\', 'r']
  else if c = '\t' then ['\\', 't']
  else if c = '\x08' then ['\\', 'b']
  else if c = '\x0c' then ['\\', 'f']
  else if c.toNat < 32 then ['\\', 'u', '0', '0', hexDigitChar (c.toNat / 16), hexDigitChar (c.toNat % 16)]
  else [c]

def escapeL (l : List Char) : List Char := (l.map escapeChar).flatten

/- A JSON string literal for s. -/
def strLit (s : String) : List Char := '"' :: (escapeL s.data ++ ['"'])

/- Newline plus the indentation of nesting level lvl (indent=2). -/
def nlInd (lvl : Nat) : List Char := '\n' :: List.replicate (2 * lvl) ' '

/- Model of json.dumps(obj, ensure_ascii=False, indent=2).  The Bool flag
   false renders a value, true renders the tail of a dict/list chain
   (leading comma separators); a datetime, date, time or opaque cell
   anywhere yields none, modelling the TypeError json.dumps raises on every
   non-serializable object. -/
def dumpsAux : Nat → Bool → PyObj → Option (List Char)
  | _, false, PyObj.pdatetime _ => none
  | _, false, PyObj.pdate _ => none
  | _, false, PyObj.ptime _ => none
  | _, false, PyObj.popaque _ => none
  | _, false, PyObj.pstr s => some (strLit s)
  | _, false, PyObj.pint n => some (intReprL n)
  | _, false, PyObj.pbool b => some (if b then ['t', 'r', 'u', 'e'] else ['f', 'a', 'l', 's', 'e'])
  | _, false, PyObj.pnone => some ['n', 'u', 'l', 'l']
  | _, false, PyObj.plistNil => some ['[', ']']
  | lvl, false, PyObj.plistCons v rest =>
    (dumpsAux (lvl + 1) false v).bind (fun sv =>
      (dumpsAux (lvl + 1) true rest).bind (fun sr =>
        some ('[' :: (nlInd (lvl + 1) ++ sv ++ sr ++ nlInd lvl ++ [']']))))
  | _, false, PyObj.pdictNil => some ['\x7b', '\x7d']
  | lvl, false, PyObj.pdictCons k v rest =>
    (dumpsAux (lvl + 1) false v).bind (fun sv =>
      (dumpsAux (lvl + 1) true rest).bind (fun sr =>
        some ('\x7b' :: (nlInd (lvl + 1) ++ strLit k ++ ':' :: ' ' :: sv ++ sr ++ nlInd lvl ++ ['\x7d']))))
  | _, true, PyObj.plistNil => some []
  | _, true, PyObj.pdictNil => some []
  | lvl, true, PyObj.plistCons v rest =>
    (dumpsAux lvl false v).bind (fun sv =>
      (dumpsAux lvl true rest).bind (fun sr => some (',' :: (nlInd lvl ++ sv ++ sr))))
  | lvl, true, PyObj.pdictCons k v rest =>
    (dumpsAux lvl false v).bind (fun sv =>
      (dumpsAux lvl true rest).bind (fun sr =>
        some (',' :: (nlInd lvl ++ strLit k ++ ':' :: ' ' :: sv ++ sr))))
  | _, true, _ => some []

def dumpsJson (v : PyObj) : Option String := (dumpsAux 0 false v).map String.mk

/- ===== json.loads, as used on the serialized payload ===== -/

def jsonWsChar (c : Char) : Bool := c = ' ' || c = '\t' || c = '\n' || c = '\r'

def skipWs : List Char → List Char
  | [] => []
  | c :: rest => if jsonWsChar c then skipWs rest else c :: rest

def isDigitCh (c : Char) : Bool := '0' ≤ c && c ≤ '9'

def isHexDigit (c : Char) : Bool :=
  ('0' ≤ c && c ≤ '9') || ('a' ≤ c && c ≤ 'f') || ('A' ≤ c && c ≤ 'F')

/- Scan a JSON string body after the opening quote; fuel-driven, with the
   input length as always-sufficient fuel. -/
def scanStr : Nat → List Char → Option (List Char)
  | 0, _ => none
  | _ + 1, [] => none
  | fuel + 1, c :: rest =>
    if c = '"' then some rest
    else if c = '\\' then
      match rest with
      | [] => none
      | e :: rest2 =>
        if e = 'u' then
          match rest2 with
          | a :: b :: c2 :: d :: rest3 =>
            if isHexDigit a && isHexDigit b && isHexDigit c2 && isHexDigit d then scanStr fuel rest3
            else none
          | _ => none
        else if e = '"' || e = '\\' || e = '/' || e = 'b' || e = 'f' || e = 'n' || e = 'r' || e = 't' then
          scanStr fuel rest2
        else none
    else if c.toNat < 32 then none
    else scanStr fuel rest

/- Exponent part of a JSON number (possibly empty). -/
def scanExp : List Char → Option (List Char)
  | [] => some []
  | c :: r =>
    if c = 'e' || c = 'E' then
      let r1 := match r with
        | s :: r2 => if s = '+' || s = '-' then r2 else s :: r2
        | [] => []
      match r1 with
      | d :: _ => if isDigitCh d then some (r1.dropWhile isDigitCh) else none
      | [] => none
    else some (c :: r)

/- Fraction-then-exponent part of a JSON number (possibly empty). -/
def scanFrac : List Char → Option (List Char)
  | '.' :: r =>
    (match r with
     | d :: _ => if isDigitCh d then scanExp (r.dropWhile isDigitCh) else none
     | [] => none)
  | l => scanExp l

/- A JSON number: -?(0|[1-9][0-9]*)(.[0-9]+)?([eE][+-]?[0-9]+)?. -/
def scanNumber (l : List Char) : Option (List Char) :=
  let l1 := match l with | '-' :: r => r | _ => l
  match l1 with
  | '0' :: r =>
    (match r with
     | d :: _ => if isDigitCh d then none else scanFrac r
     | [] => some [])
  | c :: r => if isDigitCh c then scanFrac (r.dropWhile isDigitCh) else none
  | [] => none

/- Parser modes: a value, an array right after its bracket, an array after
   an element (count so far), an object right after its brace, a key/value
   pair, an object after a pair. -/
inductive JMode where
  | jval
  | jarr
  | jarrSep (count : Nat)
  | jobj
  | jobjPair
  | jobjSep

/- Recursive-descent JSON syntax checker modelling json.loads on the
   payload; it returns the number of top-level elements of an array (the
   only datum tools.py consumes, via len) and the unread rest.  Fuel bounds
   the recursion; the callers pass the input length plus one, which is
   always enough since every recursive step consumes input.  Like
   json.loads in its default non-strict mode, it accepts the constants
   NaN, Infinity and -Infinity wherever a value is expected (json.dumps
   emits bare NaN/Infinity for such floats, so the pipeline's own payloads
   can contain them). -/
def pStep : Nat → JMode → List Char → Option (Nat × List Char)
  | 0, _, _ => none
  | fuel + 1, JMode.jval, l =>
    match skipWs l with
    | [] => none
    | c :: rest =>
      if c = '"' then (scanStr (rest.length + 1) rest).map (fun r => (0, r))
      else if c = '[' then pStep fuel JMode.jarr rest
      else if c = '\x7b' then pStep fuel JMode.jobj rest
      else if startsWithL ['t', 'r', 'u', 'e'] (c :: rest) then some (0, rest.drop 3)
      else if startsWithL ['f', 'a', 'l', 's', 'e'] (c :: rest) then some (0, rest.drop 4)
      else if startsWithL ['n', 'u', 'l', 'l'] (c :: rest) then some (0, rest.drop 3)
      else if startsWithL ['N', 'a', 'N'] (c :: rest) then some (0, rest.drop 2)
      else if startsWithL ['I', 'n', 'f', 'i', 'n', 'i', 't', 'y'] (c :: rest) then
        some (0, rest.drop 7)
      else if startsWithL ['-', 'I', 'n', 'f', 'i', 'n', 'i', 't', 'y'] (c :: rest) then
        some (0, rest.drop 8)
      else if c = '-' || isDigitCh c then (scanNumber (c :: rest)).map (fun r => (0, r))
      else none
  | fuel + 1, JMode.jarr, l =>
    match skipWs l with
    | [] => none
    | c :: rest =>
      if c = ']' then some (0, rest)
      else (pStep fuel JMode.jval (c :: rest)).bind (fun p => pStep fuel (JMode.jarrSep 1) p.2)
  | fuel + 1, JMode.jarrSep n, l =>
    match skipWs l with
    | ']' :: rest => some (n, rest)
    | ',' :: rest => (pStep fuel JMode.jval rest).bind (fun p => pStep fuel (JMode.jarrSep (n + 1)) p.2)
    | _ => none
  | fuel + 1, JMode.jobj, l =>
    match skipWs l with
    | [] => none
    | c :: rest =>
      if c = '\x7d' then some (0, rest)
      else pStep fuel JMode.jobjPair (c :: rest)
  | fuel + 1, JMode.jobjPair, l =>
    match skipWs l with
    | '"' :: rest =>
      (scanStr (rest.length + 1) rest).bind (fun r =>
        match skipWs r with
        | ':' :: r2 => (pStep fuel JMode.jval r2).bind (fun p => pStep fuel JMode.jobjSep p.2)
        | _ => none)
    | _ => none
  | fuel + 1, JMode.jobjSep, l =>
    match skipWs l with
    | [] => none
    | c :: rest =>
      if c = '\x7d' then some (0, rest)
      else if c = ',' then pStep fuel JMode.jobjPair rest
      else none

/- Model of len(json.loads(payload)) if payload.startswith("[") else None,
   with a failed parse giving none (the JSONDecodeError branch). -/
def jsonArrayLen (l : List Char) : Option Nat :=
  match l with
  | '[' :: rest =>
    (match pStep (l.length + 1) JMode.jarr rest with
     | some (n, rest2) => if skipWs rest2 = [] then some n else none
     | none => none)
  | _ => none

def currentSizeOf (payload : String) : Option Nat := jsonArrayLen payload.data

/- ===== the size-budget guard ===== -/

def TOKEN_LIMIT : Nat := 5000

/- Model of tools.py _estimate_token_count: integer division
   (len(text) + average_chars_per_token - 1) // average_chars_per_token
   with average_chars_per_token = 3. -/
def estimateTokenCount (text : String) : Nat :=
  let average_chars_per_token := 3
  (text.length + average_chars_per_token - 1) / average_chars_per_token

/- The warning dict _enforce_token_limit builds, field for field. -/
structure TokenWarning where
  error : String
  context : String
  estimated_tokens : Nat
  token_limit : Nat
  rows_returned : Option Nat
  suggested_limit : Option Nat
  suggestion : String
deriving DecidableEq, Repr

/- Model of: suggested_limit = None; if current_size: ratio = TOKEN_LIMIT /
   token_estimate; suggested_limit = max(1, int(current_size * ratio *
   0.8)).  Python's if treats None and 0 alike as false; int() truncates,
   which on this nonnegative value is the floor; float arithmetic is
   modelled as exact rationals. -/
def suggestedLimitFor (current_size : Option Nat) (token_estimate : Nat) : Option Nat :=
  match current_size with
  | some c =>
    if c ≠ 0 then
      some (max 1 (Int.toNat ⌊(c : ℚ) * ((TOKEN_LIMIT : ℚ) / (token_estimate : ℚ)) * (8 / 10)⌋))
    else none
  | none => none

/- The "\n".join(suggestion_parts) string; the try-LIMIT clause appears
   exactly when suggested_limit is set (it is never 0, so Python's
   truthiness test is the same as presence). -/
def suggestionText (suggested_limit : Option Nat) : String :=
  "The query result is too large. Please adjust your query:" ++ "\n" ++
  "  • Reduce the LIMIT value" ++
    (match suggested_limit with
     | some n => " (try LIMIT " ++ natRepr n ++ ")"
     | none => "") ++ "\n" ++
  "  • Filter rows with WHERE clauses to reduce result size" ++ "\n" ++
  "  • Select only necessary columns instead of SELECT *" ++ "\n" ++
  "  • Use aggregation (COUNT, SUM, AVG) instead of retrieving raw rows"

/- Model of tools.py _enforce_token_limit, split at the return: inl is the
   payload returned unchanged, inr is the warning dict that gets
   json.dumps-ed in place of it. -/
def enforceTokenLimitE (payload context : String) : Sum String TokenWarning :=
  let token_estimate := estimateTokenCount payload
  if token_estimate ≤ TOKEN_LIMIT then Sum.inl payload
  else
    let current_size := currentSizeOf payload
    let suggested_limit := suggestedLimitFor current_size token_estimate
    Sum.inr ⟨"Result exceeds token budget", context, token_estimate, TOKEN_LIMIT,
      current_size, suggested_limit, suggestionText suggested_limit⟩

/- The warning dict in insertion order, as handed to json.dumps. -/
def warningToObj (w : TokenWarning) : PyObj :=
  dictToPy [("error", PyObj.pstr w.error), ("context", PyObj.pstr w.context),
    ("estimated_tokens", PyObj.pint w.estimated_tokens),
    ("token_limit", PyObj.pint w.token_limit),
    ("rows_returned", match w.rows_returned with | some n => PyObj.pint n | none => PyObj.pnone),
    ("suggested_limit", match w.suggested_limit with | some n => PyObj.pint n | none => PyObj.pnone),
    ("suggestion", PyObj.pstr w.suggestion)]

/- json.dumps(warning, ensure_ascii=False, indent=2); the getD default is
   dead code since the warning dict never contains a datetime. -/
def dumpsWarning (w : TokenWarning) : String :=
  ((dumpsAux 0 false (warningToObj w)).map String.mk).getD ""

/- The string actually returned by _enforce_token_limit. -/
def enforceTokenLimit (payload context : String) : String :=
  match enforceTokenLimitE payload context with
  | Sum.inl s => s
  | Sum.inr w => dumpsWarning w

/- Projection used to state facts about the over-budget branch. -/
def guardWarning (payload context : String) : Option TokenWarning :=
  match enforceTokenLimitE payload context with
  | Sum.inl _ => none
  | Sum.inr w => some w

/- The warning value the guard builds for a given payload (the Sum.inr
   component of enforceTokenLimitE on the over-budget branch). -/
def guardWarningValue (payload context : String) : TokenWarning :=
  ⟨"Result exceeds token budget", context, estimateTokenCount payload, TOKEN_LIMIT,
   currentSizeOf payload, suggestedLimitFor (currentSizeOf payload) (estimateTokenCount payload),
   suggestionText (suggestedLimitFor (currentSizeOf payload) (estimateTokenCount payload))⟩

/- ===== _validate_parquet_files ===== -/

/- The Union[str, List[str]] argument accepted by the tools. -/
inductive PyStrOrList where
  | one (s : String)
  | many (l : List String)

def asList : PyStrOrList → List String
  | PyStrOrList.one s => [s]
  | PyStrOrList.many l => l

/- The FileNotFoundError message, naming the missing path and pointing at
   the discovery tool. -/
def notFoundMessage (file_path : String) : String :=
  "Parquet file not found: " ++ file_path ++ "\n" ++
  "Please check the file path and ensure the file exists. " ++
  "You may use " ++ sq ++ "list_tables_in_directory" ++ sq ++
  " to discover available parquet files."

/- Model of _validate_parquet_files: the two existence checks
   (os.path.exists and Path.exists) are oracle parameters; the first path
   failing both raises FileNotFoundError, otherwise the file list is
   returned (a lone string is first wrapped into a one-element list). -/
def validateParquetFiles (osExists pathExists : String → Bool) (parquet_files : PyStrOrList) :
    Except String (List String) :=
  let files := asList parquet_files
  match files.find? (fun fp => !osExists fp && !pathExists fp) with
  | some fp => Except.error (notFoundMessage fp)
  | none => Except.ok files

/- ===== relation naming ===== -/

/- The last path component (paths use / separators). -/
def lastComponent (l : List Char) : List Char := (l.reverse.takeWhile (fun c => c ≠ '/')).reverse

/- Model of pathlib Path(p).stem: the final component without its last
   suffix; a suffix needs a dot that is neither the first nor the last
   character of the name. -/
def pathStem (p : String) : String :=
  let name := lastComponent p.data
  let j := name.reverse.findIdx (fun c => c = '.')
  if j < name.length then
    let i := name.length - 1 - j
    if 0 < i ∧ i < name.length - 1 then String.mk (name.take i) else String.mk name
  else String.mk name

/- The candidate f"{base_name}_{counter}". -/
def candName (base : String) (k : Nat) : String := String.mk (base.data ++ '_' :: natReprL k)

/- The while loop of query_parquet_files: try base_1, base_2, ... until a
   name is free.  Fuel-driven; chooseName supplies fuel that nameLoop_spec
   below proves sufficient, so the fuel-exhausted value is dead code. -/
def nameLoop (base : String) (taken : List String) : Nat → Nat → String
  | _, 0 => ""
  | counter, fuel + 1 =>
    if candName base counter ∈ taken then nameLoop base taken (counter + 1) fuel
    else candName base counter

/- table_name = base_name, then the while loop if it is already taken. -/
def chooseName (base : String) (taken : List String) : String :=
  if base ∈ taken then nameLoop base taken 1 (taken.length + 1) else base

/- The view-registration loop: each stem gets its chosen name, which is
   then added to the taken set (modelled as the accumulated list). -/
def assignNames : List String → List String → List String
  | [], _ => []
  | stem :: rest, taken =>
    let n := chooseName stem taken
    n :: assignNames rest (taken ++ [n])

def tableNamesFor (paths : List String) : List String := assignNames (paths.map pathStem) []

/- What the name-collision loop guarantees for one choice: the stem itself
   when it is free, else the first free numbered candidate. -/
def ChosenSpec (base : String) (taken : List String) (n : String) : Prop :=
  (base ∉ taken ∧ n = base) ∨
  (base ∈ taken ∧ ∃ k, 1 ≤ k ∧ n = candName base k ∧ candName base k ∉ taken ∧
    ∀ j, 1 ≤ j → j < k → candName base j ∈ taken)

/- ===== the query tool ===== -/

/- The possible replies of the post-execution pipeline of
   query_parquet_files: the no-rows indicator, the serialized records
   (with the payload string the guard let through), the over-budget
   warning, or a json.dumps TypeError — reachable whenever a capped row
   holds a date, time or opaque cell, since datetime normalization only
   removes datetime.datetime values; the tool's except handler turns it
   into the generic failure text. -/
inductive QueryReply where
  | noResults
  | records (rows : PyObj) (payload : String)
  | overflow (w : TokenWarning)
  | serFailure
deriving DecidableEq, Repr

def noResultsMessage : String := "Query executed successfully but returned no results."

/- Lines 159-171 of tools.py: empty-result check, dict building,
   datetime normalization, truncation to the cap, serialization and the
   token-budget guard. -/
def processQueryResult (columns : List String) (result : List (List PyObj)) (limit : Nat) :
    QueryReply :=
  match result with
  | [] => QueryReply.noResults
  | _ :: _ =>
    let rows := listToPy (result.map (fun row => zipToDict columns row))
    let serialized_rows := serialize_datetime rows
    let truncated :=
      if limit < pyLen serialized_rows then pyTake limit serialized_rows else serialized_rows
    match dumpsJson truncated with
    | none => QueryReply.serFailure
    | some result_json =>
      match enforceTokenLimitE result_json "query_parquet_files" with
      | Sum.inl payload => QueryReply.records truncated payload
      | Sum.inr w => QueryReply.overflow w

/- What a tool call produces for its caller: a returned string, or an
   uncaught exception escaping the function. -/
inductive PyReturn where
  | text (s : String)
  | uncaught (e : String)
deriving DecidableEq, Repr

/- Python's repr of a list of strings, as f-string interpolation shows
   list(table_names); the iteration order of the Python set is modelled as
   insertion order. -/
def pyListRepr (l : List String) : String :=
  "[" ++ String.intercalate ", " (l.map (fun s => sq ++ s ++ sq)) ++ "]"

def unboundLocalErrorMsg : String :=
  "UnboundLocalError: local variable " ++ sq ++ "table_names" ++ sq ++
  " referenced before assignment"

/- The except-branch of query_parquet_files.  table_names is None when the
   exception was raised before line 144 assigned it; the first two branches
   interpolate list(table_names) into their f-string, which then raises
   UnboundLocalError instead of returning. -/
def handleQueryError (table_names : Option (List String)) (query error_msg : String) : PyReturn :=
  let low := toLowerL error_msg.data
  if containsSub "syntax error".data low || containsSub "parser error".data low then
    match table_names with
    | none => PyReturn.uncaught unboundLocalErrorMsg
    | some ns =>
      PyReturn.text ("SQL syntax error: " ++ error_msg ++ "\n" ++ "Query: " ++ query ++ "\n" ++
        "Available tables: " ++ pyListRepr ns)
  else if containsSub "catalog".data low || containsSub "table".data low then
    match table_names with
    | none => PyReturn.uncaught unboundLocalErrorMsg
    | some ns =>
      PyReturn.text ("Table reference error: " ++ error_msg ++ "\n" ++
        "Available tables: " ++ pyListRepr ns)
  else PyReturn.text ("Query execution failed: " ++ error_msg)

/- Representative json.dumps TypeError message; the real message names the
   offending type (date, time, Decimal, bytes, ...), and no such message
   contains the except-handler's keywords (syntax/parser/catalog/table), so
   the branch the handler takes does not depend on which type it names. -/
def jsonDumpsTypeError : String := "Object of type date is not JSON serializable"

/- Model of query_parquet_files.  The filesystem is the two existence
   oracles; the engine (view registration plus query execution) is the
   engineExec oracle, given the bound relation names and producing either
   an error message or the column names and fetched rows. -/
def queryParquetFilesModel (osExists pathExists : String → Bool)
    (engineExec : List String → Except String (List String × List (List PyObj)))
    (parquet_files : PyStrOrList) (query : String) (limit : Nat) : PyReturn :=
  match validateParquetFiles osExists pathExists parquet_files with
  | Except.error msg => handleQueryError none query msg
  | Except.ok files =>
    let table_names := tableNamesFor files
    match engineExec table_names with
    | Except.error msg => handleQueryError (some table_names) query msg
    | Except.ok (columns, result) =>
      match processQueryResult columns result limit with
      | QueryReply.noResults => PyReturn.text noResultsMessage
      | QueryReply.records _ payload => PyReturn.text payload
      | QueryReply.overflow w => PyReturn.text (dumpsWarning w)
      | QueryReply.serFailure => handleQueryError (some table_names) query jsonDumpsTypeError

/- The records carried by a reply, if any. -/
def recordsOf : QueryReply → Option PyObj
  | QueryReply.records rows _ => some rows
  | _ => none

/- The first limit rows of the unbounded result, dict-built and
   datetime-normalized, in engine order. -/
def cappedRows (columns : List String) (result : List (List PyObj)) (limit : Nat) : PyObj :=
  listToPy ((result.take limit).map (fun row => serialize_datetime (zipToDict columns row)))

/- The over-budget guarantee of the guard: the warning records the
   re-parsed row count, and the suggested cap is the capped-ratio formula
   exactly when that count is known and nonzero (in both its source form,
   a rational floor, and its equivalent natural-division form). -/
def GuardOverOutcome (payload context : String) : Prop :=
  ∃ w, enforceTokenLimitE payload context = Sum.inr w ∧
    w.rows_returned = currentSizeOf payload ∧
    w.suggested_limit = (match currentSizeOf payload with
      | none => none
      | some 0 => none
      | some (c + 1) => some (max 1 (Int.toNat ⌊((c + 1 : ℕ) : ℚ) *
          ((TOKEN_LIMIT : ℚ) / ((estimateTokenCount payload : ℕ) : ℚ)) * (8 / 10)⌋))) ∧
    (∀ c : Nat, currentSizeOf payload = some c → 0 < c →
      w.suggested_limit = some (max 1 (4000 * c / estimateTokenCount payload)))

/- What the truncation stage guarantees when the engine returns more rows
   than the cap: the first cap rows (in engine order) are what the reply
   serializes, and the reply is those records when the serialization
   succeeds and fits the budget, the size diagnostic when it succeeds and
   does not, and the serialization-failure path (the tool's generic error
   text) exactly when json.dumps rejects a capped cell; rows free of
   non-serializable cells always serialize. -/
def CappedOutcome (columns : List String) (result : List (List PyObj)) (limit : Nat) : Prop :=
  pyLen (cappedRows columns result limit) = limit ∧
  ((∃ s, dumpsJson (cappedRows columns result limit) = some s ∧
     ((∃ payload, processQueryResult columns result limit =
         QueryReply.records (cappedRows columns result limit) payload ∧
         estimateTokenCount payload ≤ TOKEN_LIMIT) ∨
      (∃ w, processQueryResult columns result limit = QueryReply.overflow w ∧
         TOKEN_LIMIT < w.estimated_tokens))) ∨
   (dumpsJson (cappedRows columns result limit) = none ∧
     processQueryResult columns result limit = QueryReply.serFailure)) ∧
  (containsNonSerializable (cappedRows columns result limit) = false →
    ∃ s, dumpsJson (cappedRows columns result limit) = some s)

/- What the naming stage guarantees: one name per path, no duplicates, and
   each name is its stem's first free candidate. -/
def NamesOutcome (paths : List String) (i : Nat) : Prop :=
  (tableNamesFor paths).length = paths.length ∧
  (tableNamesFor paths).Nodup ∧
  ∃ p n, paths[i]? = some p ∧ (tableNamesFor paths)[i]? = some n ∧
    ChosenSpec (pathStem p) ((tableNamesFor paths).take i) n

/- Concrete payloads used in the guard theorems. -/
def overPayloadA : String := String.mk (List.replicate 15001 'a')

def emptyArrayPayload : String := String.mk ('[' :: (List.replicate 15000 ' ' ++ [']']))

def singletonArrayPayload : String :=
  String.mk ('[' :: '"' :: (List.replicate 15000 'a' ++ ['"', ']']))

/- A 15100-character cell value, big enough that a single record blows the
   token budget. -/
def bigCellStr : String := String.mk (List.replicate 15100 'a')

/- An over-budget payload of 3751 bare NaN constants — the shape json.dumps
   gives a result full of float NaN cells, and json.loads re-parses in its
   default non-strict mode. -/
def nanArrayPayload : String :=
  String.mk ('[' :: 'N' :: 'a' :: 'N' ::
    ((List.replicate 3750 ([',', 'N', 'a', 'N'] : List Char)).flatten ++ [']']))

/- ===== theorems ===== -/

theorem serialize_datetime_no_dt (v : PyObj) : containsDatetime (serialize_datetime v) = false := by
  induction v with
  | pdatetime d => simp [serialize_datetime, containsDatetime]
  | pdictCons k v rest ihv ihr => simp [serialize_datetime, containsDatetime, ihv, ihr]
  | plistCons v rest ihv ihr => simp [serialize_datetime, containsDatetime, ihv, ihr]
  | pdate d => simp [serialize_datetime, containsDatetime]
  | ptime t => simp [serialize_datetime, containsDatetime]
  | popaque tag => simp [serialize_datetime, containsDatetime]
  | pstr s => simp [serialize_datetime, containsDatetime]
  | pint n => simp [serialize_datetime, containsDatetime]
  | pbool b => simp [serialize_datetime, containsDatetime]
  | pnone => simp [serialize_datetime, containsDatetime]
  | pdictNil => simp [serialize_datetime, containsDatetime]
  | plistNil => simp [serialize_datetime, containsDatetime]

theorem serialize_datetime_id_of_no_dt (v : PyObj) (h : containsDatetime v = false) :
    serialize_datetime v = v := by
  induction v with
  | pdatetime d => simp [containsDatetime] at h
  | pdictCons k v rest ihv ihr =>
    simp only [containsDatetime, Bool.or_eq_false_iff] at h
    simp [serialize_datetime, ihv h.1, ihr h.2]
  | plistCons v rest ihv ihr =>
    simp only [containsDatetime, Bool.or_eq_false_iff] at h
    simp [serialize_datetime, ihv h.1, ihr h.2]
  | pdate d => simp [serialize_datetime]
  | ptime t => simp [serialize_datetime]
  | popaque tag => simp [serialize_datetime]
  | pstr s => simp [serialize_datetime]
  | pint n => simp [serialize_datetime]
  | pbool b => simp [serialize_datetime]
  | pnone => simp [serialize_datetime]
  | pdictNil => simp [serialize_datetime]
  | plistNil => simp [serialize_datetime]

/-- C9 (amended): every value of the temporal type datetime.datetime,
however deeply nested inside dict values or list items, is converted by
the serialization step to its ISO-8601 textual representation (no
datetime.datetime survives in the output), and values free of
datetime.datetime — among them the other temporal types datetime.date and
datetime.time, which the isinstance check does not match — are passed
through unchanged; the conversion recurses uniformly through dict and
list structure. -/
theorem c9_serialize_datetime_normalizes :
    (∀ v : PyObj, containsDatetime (serialize_datetime v) = false) ∧
    (∀ v : PyObj, containsDatetime v = false → serialize_datetime v = v) ∧
    (∀ d : PyDateTime, serialize_datetime (PyObj.pdatetime d) = PyObj.pstr (isoformat d)) ∧
    (∀ d : PyDate, serialize_datetime (PyObj.pdate d) = PyObj.pdate d) ∧
    (∀ t : PyTime, serialize_datetime (PyObj.ptime t) = PyObj.ptime t) ∧
    (∀ (k : String) (v rest : PyObj), serialize_datetime (PyObj.pdictCons k v rest) =
      PyObj.pdictCons k (serialize_datetime v) (serialize_datetime rest)) ∧
    (∀ v rest : PyObj, serialize_datetime (PyObj.plistCons v rest) =
      PyObj.plistCons (serialize_datetime v) (serialize_datetime rest)) :=
  ⟨serialize_datetime_no_dt, serialize_datetime_id_of_no_dt,
   fun _ => rfl, fun _ => rfl, fun _ => rfl, fun _ _ _ => rfl, fun _ _ => rfl⟩

/-- C9 counterexample: a datetime.date value — a result value of a
temporal type, as duckdb returns for DATE columns — survives the
serialization step unconverted, also when nested inside a record dict
inside the row list, and json.dumps then rejects the rows; so not every
temporal value is converted to ISO-8601 text. -/
theorem c9_counterexample :
    serialize_datetime (PyObj.pdate ⟨2025, 7, 23⟩) = PyObj.pdate ⟨2025, 7, 23⟩ ∧
    containsTemporal (serialize_datetime (PyObj.pdate ⟨2025, 7, 23⟩)) = true ∧
    containsTemporal (serialize_datetime (PyObj.plistCons
      (PyObj.pdictCons "d" (PyObj.pdate ⟨2025, 7, 23⟩) PyObj.pdictNil)
      PyObj.plistNil)) = true ∧
    dumpsJson (serialize_datetime (PyObj.plistCons
      (PyObj.pdictCons "d" (PyObj.pdate ⟨2025, 7, 23⟩) PyObj.pdictNil)
      PyObj.plistNil)) = none :=
  ⟨rfl, rfl, rfl, rfl⟩

/-- C9 witness: instantiation at a concrete nested value containing a
datetime inside a dict inside a list, and at datetime-free values
including a date, which passes through. -/
theorem c9_witness :
    containsDatetime (serialize_datetime (PyObj.plistCons
      (PyObj.pdictCons "t" (PyObj.pdatetime ⟨2025, 7, 23, 14, 10, 23, 0⟩) PyObj.pdictNil)
      PyObj.plistNil)) = false ∧
    (containsDatetime (PyObj.pint 3) = false ∧
      serialize_datetime (PyObj.pint 3) = PyObj.pint 3) ∧
    (containsDatetime (PyObj.pdate ⟨2025, 7, 23⟩) = false ∧
      serialize_datetime (PyObj.pdate ⟨2025, 7, 23⟩) = PyObj.pdate ⟨2025, 7, 23⟩) :=
  ⟨(c9_serialize_datetime_normalizes.1 _),
   ⟨rfl, c9_serialize_datetime_normalizes.2.1 (PyObj.pint 3) rfl⟩,
   ⟨rfl, c9_serialize_datetime_normalizes.2.1 (PyObj.pdate ⟨2025, 7, 23⟩) rfl⟩⟩

/-- C10: the temporal-normalization function is idempotent: applying it
twice yields the same value as applying it once, for every (arbitrarily
nested) value, because its output never contains a temporal value. -/
theorem c10_serialize_datetime_idempotent (v : PyObj) :
    serialize_datetime (serialize_datetime v) = serialize_datetime v :=
  serialize_datetime_id_of_no_dt _ (serialize_datetime_no_dt v)

theorem estimate_eq_ceil (L : Nat) : (L + 3 - 1) / 3 = ⌈(L : ℚ) / 3⌉₊ := by
  rcases Nat.eq_zero_or_pos L with h0 | hpos
  · subst h0; norm_num
  · set q := (L + 3 - 1) / 3 with hq
    have h1 : 3 * q ≤ L + 2 := by omega
    have h3 : L ≤ 3 * q := by omega
    have hq1 : 1 ≤ q := by omega
    symm
    rw [Nat.ceil_eq_iff (by omega)]
    refine ⟨?_, ?_⟩
    · rw [lt_div_iff₀ (by norm_num : (0 : ℚ) < 3), Nat.cast_sub hq1]
      have hc : ((3 * q : ℕ) : ℚ) ≤ ((L : ℕ) : ℚ) + 2 := by exact_mod_cast h1
      push_cast at hc ⊢
      linarith
    · rw [div_le_iff₀ (by norm_num : (0 : ℚ) < 3)]
      have hc : ((L : ℕ) : ℚ) ≤ ((3 * q : ℕ) : ℚ) := by exact_mod_cast h3
      push_cast at hc ⊢
      linarith

/-- C7: the token estimate is deterministic and equals ceil(len(s)/3) for
every text s: equal strings give equal estimates, and the value depends
only on the character length of the string, never on its content. -/
theorem c7_estimate_token_count_is_ceil :
    (∀ s : String, estimateTokenCount s = ⌈(s.length : ℚ) / 3⌉₊) ∧
    (∀ s t : String, s = t → estimateTokenCount s = estimateTokenCount t) ∧
    (∀ s t : String, s.length = t.length → estimateTokenCount s = estimateTokenCount t) := by
  refine ⟨fun s => estimate_eq_ceil s.length, fun s t h => by rw [h], fun s t h => ?_⟩
  simp only [estimateTokenCount, h]

/-- C7 witness: instantiation at concrete strings of length 7 with
different content. -/
theorem c7_witness :
    estimateTokenCount "abcdefg" = ⌈(("abcdefg".length : ℕ) : ℚ) / 3⌉₊ ∧
    estimateTokenCount "abcdefg" = 3 ∧
    ("abcdefg".length = "hijklmn".length ∧
      estimateTokenCount "abcdefg" = estimateTokenCount "hijklmn") :=
  ⟨c7_estimate_token_count_is_ceil.1 "abcdefg", rfl,
   ⟨rfl, c7_estimate_token_count_is_ceil.2.2 "abcdefg" "hijklmn" rfl⟩⟩

theorem string_mk_length (l : List Char) : (String.mk l).length = l.length := rfl

theorem estimate_mk (l : List Char) :
    estimateTokenCount (String.mk l) = (l.length + 3 - 1) / 3 := rfl

/-- C1: for every payload handed to the guard (on every query-tool call),
exactly one of two shapes comes back: the payload itself, unchanged, when
its token estimate is at most the 5000-token budget; otherwise the
serialized diagnostic, whose estimated_tokens exceeds 5000 and whose
token_limit equals 5000, and never the raw payload. -/
theorem c1_guard_two_shapes (payload context : String) :
    (estimateTokenCount payload ≤ TOKEN_LIMIT →
      enforceTokenLimitE payload context = Sum.inl payload ∧
      enforceTokenLimit payload context = payload) ∧
    (TOKEN_LIMIT < estimateTokenCount payload →
      ∃ w : TokenWarning, enforceTokenLimitE payload context = Sum.inr w ∧
        TOKEN_LIMIT < w.estimated_tokens ∧ w.token_limit = TOKEN_LIMIT ∧
        enforceTokenLimit payload context = dumpsWarning w ∧
        (∀ s : String, enforceTokenLimitE payload context ≠ Sum.inl s)) := by
  constructor
  · intro h
    constructor
    · simp [enforceTokenLimitE, h]
    · simp [enforceTokenLimit, enforceTokenLimitE, h]
  · intro h
    have hn : ¬ estimateTokenCount payload ≤ TOKEN_LIMIT := not_le.mpr h
    refine ⟨⟨"Result exceeds token budget", context, estimateTokenCount payload, TOKEN_LIMIT,
      currentSizeOf payload, suggestedLimitFor (currentSizeOf payload) (estimateTokenCount payload),
      suggestionText (suggestedLimitFor (currentSizeOf payload) (estimateTokenCount payload))⟩,
      ?_, h, rfl, ?_, ?_⟩
    · simp [enforceTokenLimitE, hn]
    · simp [enforceTokenLimit, enforceTokenLimitE, hn]
    · intro s hs
      simp [enforceTokenLimitE, hn] at hs

theorem overPayloadA_estimate : estimateTokenCount overPayloadA = 5001 := by
  rw [overPayloadA, estimate_mk, List.length_replicate]

/-- C1 witness: a 15001-character payload estimates to 5001 tokens and the
guard replaces it with the diagnostic. -/
theorem c1_witness :
    TOKEN_LIMIT < estimateTokenCount overPayloadA ∧
    ∃ w : TokenWarning,
      enforceTokenLimitE overPayloadA "query_parquet_files" = Sum.inr w ∧
      TOKEN_LIMIT < w.estimated_tokens ∧ w.token_limit = TOKEN_LIMIT ∧
      (∀ s : String, enforceTokenLimitE overPayloadA "query_parquet_files" ≠ Sum.inl s) := by
  have h : TOKEN_LIMIT < estimateTokenCount overPayloadA := by
    rw [overPayloadA_estimate]; norm_num [TOKEN_LIMIT]
  obtain ⟨w, h1, h2, h3, _, h5⟩ := (c1_guard_two_shapes overPayloadA "query_parquet_files").2 h
  exact ⟨h, w, h1, h2, h3, h5⟩

theorem c3_ratio_floor (c est : Nat) (hest : 0 < est) :
    Int.toNat ⌊(c : ℚ) * ((TOKEN_LIMIT : ℚ) / ((est : ℕ) : ℚ)) * (8 / 10)⌋ =
      4000 * c / est := by
  have hne : ((est : ℕ) : ℚ) ≠ 0 := by
    exact_mod_cast Nat.pos_iff_ne_zero.mp hest
  have key : (c : ℚ) * ((TOKEN_LIMIT : ℚ) / ((est : ℕ) : ℚ)) * (8 / 10) =
      ((4000 * c : ℕ) : ℚ) / ((est : ℕ) : ℚ) := by
    have hTL : ((TOKEN_LIMIT : ℕ) : ℚ) = 5000 := by norm_num [TOKEN_LIMIT]
    rw [hTL]
    push_cast
    field_simp
    ring
  rw [key]
  rw [Int.floor_toNat, Nat.floor_div_eq_div]

/-- C3 (amended): whenever the guard rejects a payload, the warning's
rows_returned is the re-parsed row count; the suggested cap equals
max(1, floor(count x (budget/estimate) x 0.8)) exactly when that count is
known and nonzero, and is absent when the count is unknown or zero (the
source tests the count for Python truthiness, which conflates 0 and None;
floats are modelled as exact rationals). -/
theorem c3_suggested_limit (payload context : String)
    (h : TOKEN_LIMIT < estimateTokenCount payload) :
    GuardOverOutcome payload context := by
  have hn : ¬ estimateTokenCount payload ≤ TOKEN_LIMIT := not_le.mpr h
  refine ⟨⟨"Result exceeds token budget", context, estimateTokenCount payload, TOKEN_LIMIT,
    currentSizeOf payload, suggestedLimitFor (currentSizeOf payload) (estimateTokenCount payload),
    suggestionText (suggestedLimitFor (currentSizeOf payload) (estimateTokenCount payload))⟩,
    ?_, rfl, ?_, ?_⟩
  · simp [enforceTokenLimitE, hn]
  · cases hcs : currentSizeOf payload with
    | none => simp [suggestedLimitFor]
    | some c =>
      cases c with
      | zero => simp [suggestedLimitFor]
      | succ c => simp [suggestedLimitFor]
  · intro c hc hpos
    have hest : 0 < estimateTokenCount payload := by
      have : TOKEN_LIMIT = 5000 := rfl
      omega
    rw [hc]
    simp only [suggestedLimitFor, if_pos (Nat.pos_iff_ne_zero.mp hpos)]
    rw [c3_ratio_floor c (estimateTokenCount payload) hest]

theorem skipWs_replicate_space (n : Nat) (l : List Char) :
    skipWs (List.replicate n ' ' ++ l) = skipWs l := by
  induction n with
  | zero => simp
  | succ m ih => simp [List.replicate_succ, skipWs, jsonWsChar, ih]

theorem emptyArrayPayload_estimate : estimateTokenCount emptyArrayPayload = 5001 := by
  rw [emptyArrayPayload, estimate_mk]
  simp only [List.length_cons, List.length_append, List.length_replicate, List.length_singleton]
  norm_num

theorem pStep_jarr_rb (fuel : Nat) (l rest : List Char) (h : skipWs l = ']' :: rest) :
    pStep (fuel + 1) JMode.jarr l = some (0, rest) := by
  simp [pStep, h]

theorem pStep_jarr_val (fuel : Nat) (l rest : List Char) (c : Char) (h : skipWs l = c :: rest)
    (hc : ¬ c = ']') :
    pStep (fuel + 1) JMode.jarr l =
      (pStep fuel JMode.jval (c :: rest)).bind (fun p => pStep fuel (JMode.jarrSep 1) p.2) := by
  simp [pStep, h, hc]

theorem pStep_jval_str (fuel : Nat) (l rest : List Char) (h : skipWs l = '"' :: rest) :
    pStep (fuel + 1) JMode.jval l = (scanStr (rest.length + 1) rest).map (fun r => (0, r)) := by
  simp [pStep, h]

theorem pStep_jarrSep_rb (fuel n : Nat) (l rest : List Char) (h : skipWs l = ']' :: rest) :
    pStep (fuel + 1) (JMode.jarrSep n) l = some (n, rest) := by
  simp [pStep, h]

theorem jsonArrayLen_empty_ws (n : Nat) :
    jsonArrayLen ('[' :: (List.replicate n ' ' ++ [']'])) = some 0 := by
  simp only [jsonArrayLen]
  rw [pStep_jarr_rb _ _ [] (by rw [skipWs_replicate_space]; simp [skipWs, jsonWsChar])]
  simp [skipWs]

theorem emptyArrayPayload_size : currentSizeOf emptyArrayPayload = some 0 := by
  show jsonArrayLen ('[' :: (List.replicate 15000 ' ' ++ [']'])) = some 0
  exact jsonArrayLen_empty_ws 15000

/-- C3 counterexample: a rejected payload that re-parses as an empty
top-level sequence (row count known and equal to 0) carries no suggested
cap, where the claim's formula max(1, floor(0 x r x 0.8)) would demand the
cap 1. -/
theorem c3_counterexample :
    TOKEN_LIMIT < estimateTokenCount emptyArrayPayload ∧
    currentSizeOf emptyArrayPayload = some 0 ∧
    (guardWarning emptyArrayPayload "query_parquet_files").map TokenWarning.suggested_limit =
      some none ∧
    some (none : Option Nat) ≠ some (some (max 1 (Int.toNat ⌊((0 : ℕ) : ℚ) *
      ((TOKEN_LIMIT : ℚ) / ((estimateTokenCount emptyArrayPayload : ℕ) : ℚ)) * (8 / 10)⌋))) := by
  have h : TOKEN_LIMIT < estimateTokenCount emptyArrayPayload := by
    rw [emptyArrayPayload_estimate]; norm_num [TOKEN_LIMIT]
  have hn : ¬ estimateTokenCount emptyArrayPayload ≤ TOKEN_LIMIT := not_le.mpr h
  refine ⟨h, emptyArrayPayload_size, ?_, ?_⟩
  · simp [guardWarning, enforceTokenLimitE, hn, suggestedLimitFor, emptyArrayPayload_size]
  · simp

theorem scanStr_replicate_a (n : Nat) :
    ∀ fuel r, n < fuel → scanStr fuel (List.replicate n 'a' ++ '"' :: r) = some r := by
  induction n with
  | zero =>
    intro fuel r hf
    match fuel, hf with
    | f + 1, _ => simp [scanStr]
  | succ m ih =>
    intro fuel r hf
    match fuel, hf with
    | f + 1, hf =>
      rw [List.replicate_succ, List.cons_append]
      have h2 := ih f r (by omega)
      simp [scanStr, h2]

theorem singletonArrayPayload_estimate : estimateTokenCount singletonArrayPayload = 5002 := by
  rw [singletonArrayPayload, estimate_mk]
  simp only [List.length_cons, List.length_append, List.length_replicate, List.length_singleton]
  norm_num

theorem jsonArrayLen_single_str (n : Nat) :
    jsonArrayLen ('[' :: '"' :: (List.replicate n 'a' ++ ['"', ']'])) = some 1 := by
  have hrest : skipWs ('"' :: (List.replicate n 'a' ++ ['"', ']'])) =
      '"' :: (List.replicate n 'a' ++ ['"', ']']) := by
    simp [skipWs, jsonWsChar]
  simp only [jsonArrayLen]
  rw [pStep_jarr_val _ _ _ '"' hrest (by decide), List.length_cons, pStep_jval_str _ _ _ hrest]
  have hs : scanStr ((List.replicate n 'a' ++ ['"', ']']).length + 1)
      (List.replicate n 'a' ++ ['"', ']']) = some [']'] := by
    have : (List.replicate n 'a' ++ ['"', ']'] : List Char) =
        List.replicate n 'a' ++ '"' :: [']'] := rfl
    rw [this]
    apply scanStr_replicate_a
    simp only [List.length_append, List.length_replicate, List.length_cons, List.length_nil]
    omega
  rw [hs]
  simp only [Option.map_some', Option.some_bind]
  rw [pStep_jarrSep_rb _ _ _ [] (by simp [skipWs, jsonWsChar])]
  rfl

theorem singletonArrayPayload_size : currentSizeOf singletonArrayPayload = some 1 := by
  show jsonArrayLen ('[' :: '"' :: (List.replicate 15000 'a' ++ ['"', ']'])) = some 1
  exact jsonArrayLen_single_str 15000

theorem singletonArrayPayload_over :
    TOKEN_LIMIT < estimateTokenCount singletonArrayPayload ∧
    GuardOverOutcome singletonArrayPayload "query_parquet_files" := by
  have h : TOKEN_LIMIT < estimateTokenCount singletonArrayPayload := by
    rw [singletonArrayPayload_estimate]; norm_num [TOKEN_LIMIT]
  exact ⟨h, c3_suggested_limit _ _ h⟩

/- json.loads's non-strict constants are accepted by the re-parse model
   wherever a value may stand. -/
theorem currentSizeOf_nan_constants :
    currentSizeOf (String.mk ['[', 'N', 'a', 'N', ']']) = some 1 ∧
    currentSizeOf (String.mk ['[', 'I', 'n', 'f', 'i', 'n', 'i', 't', 'y', ']']) = some 1 ∧
    currentSizeOf (String.mk ['[', '-', 'I', 'n', 'f', 'i', 'n', 'i', 't', 'y', ']']) = some 1 ∧
    currentSizeOf (String.mk ['[', 'N', 'a', 'N', ',', ' ', 'N', 'a', 'N', ']']) = some 2 := by
  refine ⟨by decide, by decide, by decide, by decide⟩

theorem skipWs_not_ws (c : Char) (t : List Char) (h : jsonWsChar c = false) :
    skipWs (c :: t) = c :: t := by
  simp [skipWs, h]

theorem pStep_jval_nan (fuel : Nat) (l rest : List Char)
    (h : skipWs l = 'N' :: 'a' :: 'N' :: rest) :
    pStep (fuel + 1) JMode.jval l = some (0, rest) := by
  simp [pStep, h, startsWithL, isDigitCh]

theorem pStep_jarrSep_comma (fuel n : Nat) (l rest : List Char) (h : skipWs l = ',' :: rest) :
    pStep (fuel + 1) (JMode.jarrSep n) l =
      (pStep fuel JMode.jval rest).bind (fun p => pStep fuel (JMode.jarrSep (n + 1)) p.2) := by
  simp [pStep, h]

theorem pStep_nan_loop (k : Nat) :
    ∀ n fuel, 2 * k + 1 < fuel →
      pStep fuel (JMode.jarrSep n)
        ((List.replicate k ([',', 'N', 'a', 'N'] : List Char)).flatten ++ [']']) =
        some (n + k, []) := by
  induction k with
  | zero =>
    intro n fuel hf
    match fuel, hf with
    | f + 1, _ =>
      rw [pStep_jarrSep_rb f n _ [] (by simp [skipWs, jsonWsChar])]
      simp
  | succ m ih =>
    intro n fuel hf
    match fuel, hf with
    | f + 1, hf =>
      rw [List.replicate_succ, List.flatten_cons, List.append_assoc]
      rw [pStep_jarrSep_comma f n _
        ('N' :: 'a' :: 'N' :: ((List.replicate m ([',', 'N', 'a', 'N'] : List Char)).flatten ++
          [']'])) (by simp [skipWs, jsonWsChar])]
      have hf1 : 0 < f := by omega
      match f, hf1 with
      | f2 + 1, _ =>
        rw [pStep_jval_nan f2
          ('N' :: 'a' :: 'N' ::
            ((List.replicate m ([',', 'N', 'a', 'N'] : List Char)).flatten ++ [']']))
          ((List.replicate m ([',', 'N', 'a', 'N'] : List Char)).flatten ++ [']'])
          (skipWs_not_ws 'N' _ (by decide))]
        simp only [Option.some_bind]
        rw [ih (n + 1) (f2 + 1) (by omega)]
        have harith : n + 1 + m = n + (m + 1) := by omega
        rw [harith]

theorem length_flatten_replicate4 (k : Nat) :
    ((List.replicate k ([',', 'N', 'a', 'N'] : List Char)).flatten).length = 4 * k := by
  induction k with
  | zero => rfl
  | succ m ih =>
    rw [List.replicate_succ, List.flatten_cons, List.length_append, ih]
    simp only [List.length_cons, List.length_nil]
    omega

theorem nanArrayPayload_estimate : estimateTokenCount nanArrayPayload = 5002 := by
  rw [nanArrayPayload, estimate_mk]
  simp only [List.length_cons, List.length_append, length_flatten_replicate4,
    List.length_singleton]
  norm_num

theorem jsonArrayLen_nan_chain (k : Nat) :
    jsonArrayLen ('[' :: 'N' :: 'a' :: 'N' ::
      ((List.replicate k ([',', 'N', 'a', 'N'] : List Char)).flatten ++ [']'])) = some (1 + k) := by
  simp only [jsonArrayLen]
  rw [pStep_jarr_val _ _ _ 'N' (skipWs_not_ws 'N' _ (by decide)) (by decide), List.length_cons]
  rw [pStep_jval_nan _
    ('N' :: 'a' :: 'N' :: ((List.replicate k ([',', 'N', 'a', 'N'] : List Char)).flatten ++ [']']))
    ((List.replicate k ([',', 'N', 'a', 'N'] : List Char)).flatten ++ [']'])
    (skipWs_not_ws 'N' _ (by decide))]
  simp only [Option.some_bind]
  rw [pStep_nan_loop k 1 _ (by
    simp only [List.length_cons, List.length_append, length_flatten_replicate4,
      List.length_singleton]
    omega)]
  simp [skipWs]

theorem nanArrayPayload_size : currentSizeOf nanArrayPayload = some 3751 := by
  show jsonArrayLen ('[' :: 'N' :: 'a' :: 'N' ::
      ((List.replicate 3750 ([',', 'N', 'a', 'N'] : List Char)).flatten ++ [']'])) = some 3751
  exact (jsonArrayLen_nan_chain 3750).trans (by norm_num)

/-- C3 witness: a rejected 15005-character payload of 3751 NaN constants —
the shape a float-NaN result serializes to — re-parses to a known nonzero
row count and gets the suggested cap demanded by the formula. -/
theorem c3_witness :
    TOKEN_LIMIT < estimateTokenCount nanArrayPayload ∧
    currentSizeOf nanArrayPayload = some 3751 ∧
    GuardOverOutcome nanArrayPayload "query_parquet_files" := by
  have h : TOKEN_LIMIT < estimateTokenCount nanArrayPayload := by
    rw [nanArrayPayload_estimate]; norm_num [TOKEN_LIMIT]
  exact ⟨h, nanArrayPayload_size, c3_suggested_limit _ _ h⟩

/-- C6: a query whose execution produces zero rows yields the literal
no-results indicator, never an empty serialized sequence (json.dumps of an
empty list is the two-character string of brackets, which the indicator is
not), and a nonempty result never yields the indicator. -/
theorem c6_no_results_indicator :
    (∀ (columns : List String) (limit : Nat),
      processQueryResult columns [] limit = QueryReply.noResults) ∧
    (∀ (columns : List String) (result : List (List PyObj)) (limit : Nat), result ≠ [] →
      processQueryResult columns result limit ≠ QueryReply.noResults) ∧
    noResultsMessage = "Query executed successfully but returned no results." ∧
    dumpsJson PyObj.plistNil = some (String.mk ['[', ']']) ∧
    noResultsMessage ≠ String.mk ['[', ']'] := by
  refine ⟨fun _ _ => rfl, ?_, rfl, by decide, by decide⟩
  intro columns result limit hne
  cases result with
  | nil => exact absurd rfl hne
  | cons r rs =>
    simp only [processQueryResult]
    split
    · simp
    · split <;> simp

/-- C6 witness: instantiation at an empty and at a one-row result. -/
theorem c6_witness :
    processQueryResult ["c"] [] 50 = QueryReply.noResults ∧
    (([[PyObj.pint 1]] : List (List PyObj)) ≠ [] ∧
      processQueryResult ["c"] [[PyObj.pint 1]] 50 ≠ QueryReply.noResults) :=
  ⟨c6_no_results_indicator.1 ["c"] 50,
   ⟨by decide, c6_no_results_indicator.2.1 ["c"] [[PyObj.pint 1]] 50 (by decide)⟩⟩

theorem startsWithL_append_right (n : List Char) :
    ∀ l b, startsWithL n l = true → startsWithL n (l ++ b) = true := by
  induction n with
  | nil => intro l b _; rfl
  | cons c cs ih =>
    intro l b h
    cases l with
    | nil => exact absurd h (by simp [startsWithL])
    | cons d ds =>
      simp only [startsWithL, Bool.and_eq_true] at h
      simp only [List.cons_append, startsWithL, Bool.and_eq_true]
      exact ⟨h.1, ih ds b h.2⟩

theorem startsWithL_self_append (n r : List Char) : startsWithL n (n ++ r) = true := by
  induction n with
  | nil => rfl
  | cons c cs ih => simp [startsWithL, ih]

theorem containsSub_nil_needle (l : List Char) : containsSub [] l = true := by
  cases l with
  | nil => rfl
  | cons c cs => simp [containsSub, startsWithL]

theorem containsSub_append_right (n a b : List Char) (h : containsSub n b = true) :
    containsSub n (a ++ b) = true := by
  induction a with
  | nil => simpa
  | cons c cs ih => simp [containsSub, ih]

theorem containsSub_append_left (n : List Char) :
    ∀ a b, containsSub n a = true → containsSub n (a ++ b) = true := by
  intro a
  induction a with
  | nil =>
    intro b h
    cases n with
    | nil => exact containsSub_nil_needle b
    | cons c cs => exact absurd h (by simp [containsSub, startsWithL])
  | cons c cs ih =>
    intro b h
    simp only [containsSub, Bool.or_eq_true] at h
    rcases h with h | h
    · simp only [List.cons_append, containsSub, Bool.or_eq_true]
      exact Or.inl (startsWithL_append_right n _ b h)
    · simp only [List.cons_append, containsSub, Bool.or_eq_true]
      exact Or.inr (ih b h)

theorem containsSub_self_append (n r : List Char) : containsSub n (n ++ r) = true := by
  cases n with
  | nil => exact containsSub_nil_needle _
  | cons c cs =>
    simp only [List.cons_append, containsSub, Bool.or_eq_true]
    refine Or.inl ?_
    show startsWithL (c :: cs) (c :: (cs ++ r)) = true
    simp only [startsWithL, Bool.and_eq_true]
    exact ⟨by simp, startsWithL_self_append cs r⟩

theorem string_data_append (a b : String) : (a ++ b).data = a.data ++ b.data := rfl

theorem find?_some_split {a : Type} (p : a → Bool) :
    ∀ (l : List a) (x : a), l.find? p = some x →
      ∃ pre post, l = pre ++ x :: post ∧ ∀ y ∈ pre, p y = false := by
  intro l
  induction l with
  | nil => intro x h; simp at h
  | cons c cs ih =>
    intro x h
    by_cases hc : p c
    · rw [List.find?_cons_of_pos _ hc] at h
      obtain rfl := Option.some.inj h
      exact ⟨[], cs, rfl, by simp⟩
    · rw [List.find?_cons_of_neg _ hc] at h
      obtain ⟨pre, post, heq, hpre⟩ := ih x h
      refine ⟨c :: pre, post, by rw [heq]; rfl, ?_⟩
      intro y hy
      rcases List.mem_cons.mp hy with rfl | hy2
      · exact Bool.not_eq_true _ ▸ eq_false_of_ne_true hc
      · exact hpre y hy2

/-- C8 (amended): validation succeeds exactly when every input path passes
at least one of the two existence checks; otherwise it raises a
FileNotFoundError naming the first path in input order that fails both
checks — the input splits as pre ++ named-path :: post with every path in
pre passing a check — referencing the discovery tool, and later missing
paths are not named; a path is only rejected when both checks fail. -/
theorem c8_validate_missing_file (osE pathE : String → Bool) (files : PyStrOrList) :
    (validateParquetFiles osE pathE files = Except.ok (asList files) ↔
      ∀ fp ∈ asList files, osE fp = true ∨ pathE fp = true) ∧
    (∀ fp ∈ asList files, osE fp = false → pathE fp = false →
      ∃ fp0 ∈ asList files, osE fp0 = false ∧ pathE fp0 = false ∧
        validateParquetFiles osE pathE files = Except.error (notFoundMessage fp0)) ∧
    (∀ msg, validateParquetFiles osE pathE files = Except.error msg →
      ∃ fp0 ∈ asList files, osE fp0 = false ∧ pathE fp0 = false ∧ msg = notFoundMessage fp0) ∧
    (∀ fp : String, containsSub fp.data (notFoundMessage fp).data = true ∧
      containsSub "list_tables_in_directory".data (notFoundMessage fp).data = true) ∧
    (∀ msg, validateParquetFiles osE pathE files = Except.error msg →
      ∃ pre fp0 post, asList files = pre ++ fp0 :: post ∧
        osE fp0 = false ∧ pathE fp0 = false ∧ msg = notFoundMessage fp0 ∧
        ∀ fp2 ∈ pre, osE fp2 = true ∨ pathE fp2 = true) := by
  refine ⟨?_, ?_, ?_, ?_, ?_⟩
  · cases hf : (asList files).find? (fun fp => !osE fp && !pathE fp) with
    | none =>
      simp only [validateParquetFiles, hf]
      constructor
      · intro _ fp hfp
        have hnp := List.find?_eq_none.mp hf fp hfp
        cases hos : osE fp
        · cases hpa : pathE fp
          · exact absurd (by simp [hos, hpa]) hnp
          · exact Or.inr rfl
        · exact Or.inl rfl
      · intro _; trivial
    | some fp0 =>
      have hp := List.find?_some hf
      have hmem := List.mem_of_find?_eq_some hf
      simp only [Bool.and_eq_true, Bool.not_eq_true'] at hp
      simp only [validateParquetFiles, hf]
      constructor
      · intro h; exact absurd h (by simp)
      · intro hall
        rcases hall fp0 hmem with h | h
        · rw [h] at hp; exact absurd hp.1 (by simp)
        · rw [h] at hp; exact absurd hp.2 (by simp)
  · intro fp hfp hos hpa
    cases hf : (asList files).find? (fun fp => !osE fp && !pathE fp) with
    | none => exact absurd (by simp [hos, hpa]) (List.find?_eq_none.mp hf fp hfp)
    | some fp0 =>
      have hp := List.find?_some hf
      have hmem := List.mem_of_find?_eq_some hf
      simp only [Bool.and_eq_true, Bool.not_eq_true'] at hp
      exact ⟨fp0, hmem, hp.1, hp.2, by simp [validateParquetFiles, hf]⟩
  · intro msg hmsg
    cases hf : (asList files).find? (fun fp => !osE fp && !pathE fp) with
    | none => simp [validateParquetFiles, hf] at hmsg
    | some fp0 =>
      have hp := List.find?_some hf
      have hmem := List.mem_of_find?_eq_some hf
      simp only [Bool.and_eq_true, Bool.not_eq_true'] at hp
      simp only [validateParquetFiles, hf, Except.error.injEq] at hmsg
      exact ⟨fp0, hmem, hp.1, hp.2, hmsg.symm⟩
  · intro fp
    have hdata : (notFoundMessage fp).data =
        "Parquet file not found: ".data ++ (fp.data ++ ("\n".data ++
        ("Please check the file path and ensure the file exists. ".data ++
        ("You may use ".data ++ (sq.data ++ ("list_tables_in_directory".data ++
        (sq.data ++ " to discover available parquet files.".data))))))) := by
      simp [notFoundMessage, string_data_append, List.append_assoc]
    constructor
    · rw [hdata]
      exact containsSub_append_right _ _ _ (containsSub_self_append _ _)
    · rw [hdata]
      apply containsSub_append_right
      apply containsSub_append_right
      apply containsSub_append_right
      apply containsSub_append_right
      apply containsSub_append_right
      apply containsSub_append_right
      exact containsSub_self_append _ _
  · intro msg hmsg
    cases hf : (asList files).find? (fun fp => !osE fp && !pathE fp) with
    | none => simp [validateParquetFiles, hf] at hmsg
    | some fp0 =>
      have hp := List.find?_some hf
      simp only [Bool.and_eq_true, Bool.not_eq_true'] at hp
      simp only [validateParquetFiles, hf, Except.error.injEq] at hmsg
      obtain ⟨pre, post, heq, hpre⟩ := find?_some_split _ (asList files) fp0 hf
      refine ⟨pre, fp0, post, heq, hp.1, hp.2, hmsg.symm, ?_⟩
      intro fp2 hfp2
      have hfalse := hpre fp2 hfp2
      cases hos : osE fp2
      · cases hpa : pathE fp2
        · rw [hos, hpa] at hfalse
          simp at hfalse
        · exact Or.inr rfl
      · exact Or.inl rfl

/-- C8 counterexample: with two missing paths the single error names only
the first; no error naming the second missing path is signalled, and its
name does not even occur in the message. -/
theorem c8_counterexample :
    validateParquetFiles (fun _ => false) (fun _ => false)
      (PyStrOrList.many ["m1.parquet", "m2.parquet"]) =
      Except.error (notFoundMessage "m1.parquet") ∧
    containsSub "m2.parquet".data (notFoundMessage "m1.parquet").data = false ∧
    ("m2.parquet" : String) ∈ asList (PyStrOrList.many ["m1.parquet", "m2.parquet"]) ∧
    (fun _ : String => false) "m2.parquet" = false ∧
    notFoundMessage "m1.parquet" ≠ notFoundMessage "m2.parquet" := by
  refine ⟨rfl, by decide, by decide, rfl, by decide⟩

/-- C8 witness: a single nonexistent path (both checks fail) produces the
NotFound error naming exactly that path. -/
theorem c8_witness :
    ("x.parquet" : String) ∈ asList (PyStrOrList.one "x.parquet") ∧
    ∃ fp0 ∈ asList (PyStrOrList.one "x.parquet"),
      (fun _ : String => false) fp0 = false ∧ (fun _ : String => false) fp0 = false ∧
      validateParquetFiles (fun _ => false) (fun _ => false) (PyStrOrList.one "x.parquet") =
        Except.error (notFoundMessage fp0) := by
  refine ⟨by decide, ?_⟩
  exact (c8_validate_missing_file (fun _ => false) (fun _ => false)
    (PyStrOrList.one "x.parquet")).2.1 "x.parquet" (by decide) rfl rfl

/-- C2 (code bug): calling the query tool with a missing parquet file does
not return text: the FileNotFoundError message contains the word "table"
(via the reference to list_tables_in_directory), so the except-handler
takes the table-reference branch and interpolates list(table_names), but
table_names is only assigned after validation, so an UnboundLocalError
escapes the tool to its caller. -/
theorem c2_missing_file_uncaught :
    queryParquetFilesModel (fun _ => false) (fun _ => false) (fun _ => Except.error "")
      (PyStrOrList.one "/missing/data.parquet") "SELECT 1" 50 =
      PyReturn.uncaught unboundLocalErrorMsg := by
  rfl

theorem serialize_listToPy (l : List PyObj) :
    serialize_datetime (listToPy l) = listToPy (l.map serialize_datetime) := by
  induction l with
  | nil => rfl
  | cons v rest ih => simp [listToPy, serialize_datetime, ih]

theorem pyLen_listToPy (l : List PyObj) : pyLen (listToPy l) = l.length := by
  induction l with
  | nil => rfl
  | cons v rest ih => simp [listToPy, pyLen, ih]

theorem pyTake_listToPy (n : Nat) :
    ∀ l : List PyObj, pyTake n (listToPy l) = listToPy (l.take n) := by
  induction n with
  | zero => intro l; cases l <;> rfl
  | succ m ih =>
    intro l
    cases l with
    | nil => rfl
    | cons v rest => simp [listToPy, pyTake, List.take_succ_cons, ih]

theorem containsDatetime_listToPy (l : List PyObj) (h : ∀ v ∈ l, containsDatetime v = false) :
    containsDatetime (listToPy l) = false := by
  induction l with
  | nil => rfl
  | cons v rest ih =>
    simp only [listToPy, containsDatetime, Bool.or_eq_false_iff]
    exact ⟨h v (by simp), ih (fun x hx => h x (by simp [hx]))⟩

theorem dumpsAux_isSome_of_serializable (v : PyObj) :
    ∀ lvl mode, containsNonSerializable v = false → (dumpsAux lvl mode v).isSome = true := by
  induction v with
  | pdatetime d => intro lvl mode h; simp [containsNonSerializable] at h
  | pdate d => intro lvl mode h; simp [containsNonSerializable] at h
  | ptime t => intro lvl mode h; simp [containsNonSerializable] at h
  | popaque tag => intro lvl mode h; simp [containsNonSerializable] at h
  | pdictCons k v rest ihv ihr =>
    intro lvl mode h
    simp only [containsNonSerializable, Bool.or_eq_false_iff] at h
    cases mode
    · obtain ⟨sv, hsv⟩ := Option.isSome_iff_exists.mp (ihv (lvl + 1) false h.1)
      obtain ⟨sr, hsr⟩ := Option.isSome_iff_exists.mp (ihr (lvl + 1) true h.2)
      simp [dumpsAux, hsv, hsr]
    · obtain ⟨sv, hsv⟩ := Option.isSome_iff_exists.mp (ihv lvl false h.1)
      obtain ⟨sr, hsr⟩ := Option.isSome_iff_exists.mp (ihr lvl true h.2)
      simp [dumpsAux, hsv, hsr]
  | plistCons v rest ihv ihr =>
    intro lvl mode h
    simp only [containsNonSerializable, Bool.or_eq_false_iff] at h
    cases mode
    · obtain ⟨sv, hsv⟩ := Option.isSome_iff_exists.mp (ihv (lvl + 1) false h.1)
      obtain ⟨sr, hsr⟩ := Option.isSome_iff_exists.mp (ihr (lvl + 1) true h.2)
      simp [dumpsAux, hsv, hsr]
    · obtain ⟨sv, hsv⟩ := Option.isSome_iff_exists.mp (ihv lvl false h.1)
      obtain ⟨sr, hsr⟩ := Option.isSome_iff_exists.mp (ihr lvl true h.2)
      simp [dumpsAux, hsv, hsr]
  | pstr s => intro lvl mode _; cases mode <;> simp [dumpsAux]
  | pint n => intro lvl mode _; cases mode <;> simp [dumpsAux]
  | pbool b => intro lvl mode _; cases mode <;> simp [dumpsAux]
  | pnone => intro lvl mode _; cases mode <;> simp [dumpsAux]
  | pdictNil => intro lvl mode _; cases mode <;> simp [dumpsAux]
  | plistNil => intro lvl mode _; cases mode <;> simp [dumpsAux]

theorem processQueryResult_unfold (columns : List String) (result : List (List PyObj))
    (limit : Nat) (h : limit < result.length) :
    processQueryResult columns result limit =
      (match dumpsJson (cappedRows columns result limit) with
       | none => QueryReply.serFailure
       | some result_json =>
         match enforceTokenLimitE result_json "query_parquet_files" with
         | Sum.inl payload => QueryReply.records (cappedRows columns result limit) payload
         | Sum.inr w => QueryReply.overflow w) := by
  cases result with
  | nil => simp at h
  | cons r rs =>
    have hser : serialize_datetime (listToPy ((r :: rs).map (fun row => zipToDict columns row))) =
        listToPy (((r :: rs).map (fun row => zipToDict columns row)).map serialize_datetime) :=
      serialize_listToPy _
    have hlen2 : pyLen (serialize_datetime
        (listToPy ((r :: rs).map (fun row => zipToDict columns row)))) = (r :: rs).length := by
      rw [hser, pyLen_listToPy, List.length_map, List.length_map]
    have htr : pyTake limit (serialize_datetime
        (listToPy ((r :: rs).map (fun row => zipToDict columns row)))) =
        cappedRows columns (r :: rs) limit := by
      rw [hser, pyTake_listToPy, cappedRows, ← List.map_take, ← List.map_take, List.map_map]
      rfl
    simp only [processQueryResult, hlen2, if_pos h, htr]

theorem processQueryResult_some (columns : List String) (result : List (List PyObj))
    (limit : Nat) (h : limit < result.length) (s : String)
    (hdj : dumpsJson (cappedRows columns result limit) = some s) :
    processQueryResult columns result limit =
      (match enforceTokenLimitE s "query_parquet_files" with
       | Sum.inl payload => QueryReply.records (cappedRows columns result limit) payload
       | Sum.inr w => QueryReply.overflow w) := by
  rw [processQueryResult_unfold columns result limit h, hdj]

/-- C4 (amended): for every query whose unbounded result has more rows than
the cap, the record list serialized into the reply contains exactly cap
records — the first cap rows of the unbounded result in the engine's
natural order, with no re-sorting — and the reply is those records when
their serialization succeeds and fits the token budget, the size
diagnostic of the guard when it succeeds and does not, and the
serialization-failure path (converted by the tool's except handler to its
generic error text) exactly when a capped cell is one json.dumps cannot
serialize (a date, time or Decimal/bytes/UUID-like cell); capped rows free
of such cells always serialize. -/
theorem c4_capped_first_rows (columns : List String) (result : List (List PyObj)) (limit : Nat)
    (h : limit < result.length) : CappedOutcome columns result limit := by
  have hlen : pyLen (cappedRows columns result limit) = limit := by
    rw [cappedRows, pyLen_listToPy, List.length_map, List.length_take]
    omega
  have hpr := processQueryResult_unfold columns result limit h
  refine ⟨hlen, ?_, ?_⟩
  · cases hdj : dumpsJson (cappedRows columns result limit) with
    | none =>
      right
      rw [hdj] at hpr
      exact ⟨rfl, hpr⟩
    | some s =>
      left
      rw [hdj] at hpr
      refine ⟨s, rfl, ?_⟩
      by_cases hle : estimateTokenCount s ≤ TOKEN_LIMIT
      · left
        refine ⟨s, ?_, hle⟩
        rw [hpr]
        simp [enforceTokenLimitE, hle]
      · right
        have hgt : TOKEN_LIMIT < estimateTokenCount s := not_le.mp hle
        refine ⟨⟨"Result exceeds token budget", "query_parquet_files", estimateTokenCount s,
          TOKEN_LIMIT, currentSizeOf s, suggestedLimitFor (currentSizeOf s) (estimateTokenCount s),
          suggestionText (suggestedLimitFor (currentSizeOf s) (estimateTokenCount s))⟩, ?_, hgt⟩
        rw [hpr]
        simp [enforceTokenLimitE, hle]
  · intro hns
    obtain ⟨s0, hs0⟩ := Option.isSome_iff_exists.mp
      (dumpsAux_isSome_of_serializable (cappedRows columns result limit) 0 false hns)
    exact ⟨String.mk s0, by simp [dumpsJson, hs0]⟩

/- The serialization-failure path is live: a DATE cell (a datetime.date in
   Python) survives normalization, json.dumps rejects it, and the tool
   returns the handler's generic failure text. -/
theorem serFailure_live :
    processQueryResult ["d"] [[PyObj.pdate ⟨2025, 7, 23⟩], [PyObj.pdate ⟨2025, 7, 24⟩]] 1 =
      QueryReply.serFailure ∧
    queryParquetFilesModel (fun _ => true) (fun _ => true)
      (fun _ => Except.ok (["d"], [[PyObj.pdate ⟨2025, 7, 23⟩], [PyObj.pdate ⟨2025, 7, 24⟩]]))
      (PyStrOrList.one "t.parquet") "SELECT d FROM t" 1 =
      PyReturn.text ("Query execution failed: " ++ jsonDumpsTypeError) := by
  exact ⟨rfl, rfl⟩

/-- C4 witness: two one-column rows with cap 1 produce exactly the first
row as the reply's record list. -/
theorem c4_witness :
    (1 : Nat) < ([[PyObj.pint 1], [PyObj.pint 2]] : List (List PyObj)).length ∧
    CappedOutcome ["c"] [[PyObj.pint 1], [PyObj.pint 2]] 1 :=
  ⟨by decide, c4_capped_first_rows ["c"] [[PyObj.pint 1], [PyObj.pint 2]] 1 (by decide)⟩

theorem escapeChar_a : escapeChar 'a' = ['a'] := by decide

theorem escapeL_replicate_a (n : Nat) :
    escapeL (List.replicate n 'a') = List.replicate n 'a' := by
  induction n with
  | zero => rfl
  | succ m ih =>
    rw [List.replicate_succ]
    simp only [escapeL, List.map_cons, List.flatten_cons, escapeChar_a]
    rw [show (List.map escapeChar (List.replicate m 'a')).flatten =
        escapeL (List.replicate m 'a') from rfl, ih]
    rfl

theorem length_nlInd (k : Nat) : (nlInd k).length = 2 * k + 1 := by
  simp [nlInd]

theorem enforceTokenLimitE_inr (payload context : String)
    (hn : ¬ estimateTokenCount payload ≤ TOKEN_LIMIT) :
    enforceTokenLimitE payload context = Sum.inr (guardWarningValue payload context) := by
  simp [enforceTokenLimitE, guardWarningValue, hn]

theorem length_strLit_big : (strLit bigCellStr).length = 15102 := by
  show ('"' :: (escapeL bigCellStr.data ++ ['"'])).length = 15102
  rw [show bigCellStr.data = List.replicate 15100 'a' from rfl, escapeL_replicate_a]
  simp only [List.length_cons, List.length_append, List.length_replicate, List.length_singleton]
  norm_num

/-- C4 counterexample: with two oversized rows and cap 1 the first capped
record alone exceeds the token budget, so the reply is the size diagnostic
and contains no records at all — not exactly cap records as the claim
demands. -/
theorem c4_counterexample :
    ([[PyObj.pstr bigCellStr], [PyObj.pstr bigCellStr]] : List (List PyObj)).length = 2 ∧
    recordsOf (processQueryResult ["c"] [[PyObj.pstr bigCellStr], [PyObj.pstr bigCellStr]] 1) =
      none ∧
    ∃ w, processQueryResult ["c"] [[PyObj.pstr bigCellStr], [PyObj.pstr bigCellStr]] 1 =
      QueryReply.overflow w := by
  have hcap : cappedRows ["c"] [[PyObj.pstr bigCellStr], [PyObj.pstr bigCellStr]] 1 =
      PyObj.plistCons (PyObj.pdictCons "c" (PyObj.pstr bigCellStr) PyObj.pdictNil)
        PyObj.plistNil := rfl
  have hdump : dumpsJson (PyObj.plistCons
      (PyObj.pdictCons "c" (PyObj.pstr bigCellStr) PyObj.pdictNil) PyObj.plistNil) =
      some (String.mk ('[' :: (nlInd 1 ++
        ('\x7b' :: (nlInd 2 ++ strLit "c" ++ ':' :: ' ' :: strLit bigCellStr ++
          ([] : List Char) ++ nlInd 1 ++ ['\x7d'])) ++
        ([] : List Char) ++ nlInd 0 ++ [']']))) := rfl
  have hlen : (String.mk ('[' :: (nlInd 1 ++
      ('\x7b' :: (nlInd 2 ++ strLit "c" ++ ':' :: ' ' :: strLit bigCellStr ++
        ([] : List Char) ++ nlInd 1 ++ ['\x7d'])) ++
      ([] : List Char) ++ nlInd 0 ++ [']']))).length = 15123 := by
    rw [string_mk_length]
    simp only [List.length_cons, List.length_append, length_nlInd, List.length_nil,
      List.length_singleton, length_strLit_big]
    have h3 : (strLit "c").length = 3 := by decide
    rw [h3]
  have hest : estimateTokenCount (String.mk ('[' :: (nlInd 1 ++
      ('\x7b' :: (nlInd 2 ++ strLit "c" ++ ':' :: ' ' :: strLit bigCellStr ++
        ([] : List Char) ++ nlInd 1 ++ ['\x7d'])) ++
      ([] : List Char) ++ nlInd 0 ++ [']']))) = 5041 := by
    simp only [estimateTokenCount]
    rw [hlen]
  have hn : ¬ estimateTokenCount (String.mk ('[' :: (nlInd 1 ++
      ('\x7b' :: (nlInd 2 ++ strLit "c" ++ ':' :: ' ' :: strLit bigCellStr ++
        ([] : List Char) ++ nlInd 1 ++ ['\x7d'])) ++
      ([] : List Char) ++ nlInd 0 ++ [']']))) ≤ TOKEN_LIMIT := by
    rw [hest]; norm_num [TOKEN_LIMIT]
  have henf := (enforceTokenLimitE_inr (String.mk ('[' :: (nlInd 1 ++
      ('\x7b' :: (nlInd 2 ++ strLit "c" ++ ':' :: ' ' :: strLit bigCellStr ++
        ([] : List Char) ++ nlInd 1 ++ ['\x7d'])) ++
      ([] : List Char) ++ nlInd 0 ++ [']']))) "query_parquet_files" hn)
  have hsome : dumpsJson (cappedRows ["c"] [[PyObj.pstr bigCellStr], [PyObj.pstr bigCellStr]] 1) =
      some (String.mk ('[' :: (nlInd 1 ++
        ('\x7b' :: (nlInd 2 ++ strLit "c" ++ ':' :: ' ' :: strLit bigCellStr ++
          ([] : List Char) ++ nlInd 1 ++ ['\x7d'])) ++
        ([] : List Char) ++ nlInd 0 ++ [']']))) := by
    rw [hcap]
    exact hdump
  have hpr2 := processQueryResult_some ["c"] [[PyObj.pstr bigCellStr], [PyObj.pstr bigCellStr]] 1
    (by decide) _ hsome
  rw [henf] at hpr2
  have hfin : processQueryResult ["c"] [[PyObj.pstr bigCellStr], [PyObj.pstr bigCellStr]] 1 =
      QueryReply.overflow (guardWarningValue (String.mk ('[' :: (nlInd 1 ++
        ('\x7b' :: (nlInd 2 ++ strLit "c" ++ ':' :: ' ' :: strLit bigCellStr ++
          ([] : List Char) ++ nlInd 1 ++ ['\x7d'])) ++
        ([] : List Char) ++ nlInd 0 ++ [']']))) "query_parquet_files") := hpr2
  refine ⟨by decide, ?_, ?_⟩
  · rw [hfin]; rfl
  · exact ⟨_, hfin⟩

theorem natDigitsAux_stable (n : Nat) :
    ∀ f g, n < f → n < g → natDigitsAux f n = natDigitsAux g n := by
  induction n using Nat.strong_induction_on with
  | _ n ih =>
    intro f g hf hg
    match f, g, hf, hg with
    | f + 1, g + 1, hf, hg =>
      by_cases h10 : n < 10
      · simp [natDigitsAux, h10]
      · have hdiv : n / 10 < n := Nat.div_lt_self (by omega) (by omega)
        simp only [natDigitsAux, h10, if_false]
        rw [ih (n / 10) hdiv f g (by omega) (by omega)]

theorem natReprL_unfold (n : Nat) :
    natReprL n = if n < 10 then [digitChar n] else natReprL (n / 10) ++ [digitChar (n % 10)] := by
  by_cases h10 : n < 10
  · simp [natReprL, natDigitsAux, h10]
  · rw [if_neg h10]
    have h1 : natReprL n = natDigitsAux n (n / 10) ++ [digitChar (n % 10)] := by
      simp only [natReprL, natDigitsAux, h10, if_false]
    have hdiv : n / 10 < n := Nat.div_lt_self (by omega) (by omega)
    rw [h1, natDigitsAux_stable (n / 10) n (n / 10 + 1) (by omega) (by omega)]
    rfl

theorem natReprL_ne_nil (n : Nat) : natReprL n ≠ [] := by
  rw [natReprL_unfold]
  by_cases h10 : n < 10 <;> simp [h10]

theorem digitChar_inj_lt : ∀ a, a < 10 → ∀ b, b < 10 → digitChar a = digitChar b → a = b := by
  decide

theorem natReprL_inj (a : Nat) : ∀ b, natReprL a = natReprL b → a = b := by
  induction a using Nat.strong_induction_on with
  | _ a ih =>
    intro b h
    rw [natReprL_unfold a, natReprL_unfold b] at h
    by_cases ha : a < 10 <;> by_cases hb : b < 10
    · rw [if_pos ha, if_pos hb] at h
      injection h with h1 _
      exact digitChar_inj_lt a ha b hb h1
    · rw [if_pos ha, if_neg hb] at h
      exfalso
      have hlen := congrArg List.length h
      simp only [List.length_cons, List.length_nil, List.length_append,
        List.length_singleton] at hlen
      have hne := natReprL_ne_nil (b / 10)
      have hlen0 : (natReprL (b / 10)).length ≠ 0 := by
        simpa [List.length_eq_zero] using hne
      omega
    · rw [if_neg ha, if_pos hb] at h
      exfalso
      have hlen := congrArg List.length h
      simp only [List.length_cons, List.length_nil, List.length_append,
        List.length_singleton] at hlen
      have hne := natReprL_ne_nil (a / 10)
      have hlen0 : (natReprL (a / 10)).length ≠ 0 := by
        simpa [List.length_eq_zero] using hne
      omega
    · rw [if_neg ha, if_neg hb] at h
      have hrev := congrArg List.reverse h
      simp only [List.reverse_append, List.reverse_cons, List.reverse_nil, List.nil_append,
        List.cons_append] at hrev
      injection hrev with h1 h2
      have hmod : a % 10 = b % 10 :=
        digitChar_inj_lt (a % 10) (Nat.mod_lt _ (by omega)) (b % 10) (Nat.mod_lt _ (by omega)) h1
      have h3 : natReprL (a / 10) = natReprL (b / 10) := by
        have := congrArg List.reverse h2
        simpa using this
      have hdivlt : a / 10 < a := Nat.div_lt_self (by omega) (by omega)
      have hdiv : a / 10 = b / 10 := ih (a / 10) hdivlt (b / 10) h3
      omega

theorem candName_inj (base : String) (j k : Nat) (h : candName base j = candName base k) :
    j = k := by
  have hd : base.data ++ '_' :: natReprL j = base.data ++ '_' :: natReprL k :=
    congrArg String.data h
  have h2 := List.append_cancel_left hd
  injection h2 with _ h3
  exact natReprL_inj j k h3

theorem nameLoop_spec (base : String) (taken : List String) :
    ∀ (fuel counter : Nat), (∃ k, counter ≤ k ∧ k < counter + fuel ∧ candName base k ∉ taken) →
    ∃ k, nameLoop base taken counter fuel = candName base k ∧ counter ≤ k ∧
      candName base k ∉ taken ∧ ∀ j, counter ≤ j → j < k → candName base j ∈ taken := by
  intro fuel
  induction fuel with
  | zero =>
    intro counter hex
    obtain ⟨k, h1, h2, _⟩ := hex
    omega
  | succ f ih =>
    intro counter hex
    by_cases hc : candName base counter ∈ taken
    · have hex' : ∃ k, counter + 1 ≤ k ∧ k < counter + 1 + f ∧ candName base k ∉ taken := by
        obtain ⟨k, h1, h2, h3⟩ := hex
        have hne : k ≠ counter := fun he => h3 (he ▸ hc)
        exact ⟨k, by omega, by omega, h3⟩
      obtain ⟨k, hk1, hk2, hk3, hk4⟩ := ih (counter + 1) hex'
      refine ⟨k, ?_, by omega, hk3, ?_⟩
      · simp only [nameLoop, if_pos hc]
        exact hk1
      · intro j hj1 hj2
        rcases Nat.eq_or_lt_of_le hj1 with he | hlt
        · rw [← he]; exact hc
        · exact hk4 j (by omega) hj2
    · exact ⟨counter, by simp only [nameLoop, if_neg hc], Nat.le_refl _, hc,
        fun j hj1 hj2 => absurd hj2 (Nat.not_lt.mpr hj1)⟩

theorem exists_free_cand (base : String) (taken : List String) :
    ∃ k, 1 ≤ k ∧ k < 1 + (taken.length + 1) ∧ candName base k ∉ taken := by
  by_contra hcon
  push_neg at hcon
  have hsub : ∀ x ∈ (List.range (taken.length + 1)).map (fun i => candName base (i + 1)),
      x ∈ taken := by
    intro x hx
    simp only [List.mem_map, List.mem_range] at hx
    obtain ⟨i, hi, rfl⟩ := hx
    exact hcon (i + 1) (by omega) (by omega)
  have hinj : Function.Injective (fun i : Nat => candName base (i + 1)) := by
    intro i j hij
    have := candName_inj base (i + 1) (j + 1) hij
    omega
  have hnodup : ((List.range (taken.length + 1)).map (fun i => candName base (i + 1))).Nodup :=
    (List.nodup_range _).map hinj
  have hcard1 : ((List.range (taken.length + 1)).map
      (fun i => candName base (i + 1))).toFinset.card = taken.length + 1 := by
    rw [List.toFinset_card_of_nodup hnodup]
    simp
  have hsubf : ((List.range (taken.length + 1)).map
      (fun i => candName base (i + 1))).toFinset ⊆ taken.toFinset := by
    intro x hx
    rw [List.mem_toFinset] at hx ⊢
    exact hsub x hx
  have hle := Finset.card_le_card hsubf
  have h2 : taken.toFinset.card ≤ taken.length := List.toFinset_card_le taken
  omega

theorem chooseName_spec (base : String) (taken : List String) :
    ChosenSpec base taken (chooseName base taken) ∧ chooseName base taken ∉ taken := by
  by_cases hb : base ∈ taken
  · obtain ⟨k, hk1, hk2, hk3, hk4⟩ := nameLoop_spec base taken (taken.length + 1) 1
      (exists_free_cand base taken)
    have hcn : chooseName base taken = candName base k := by
      simp only [chooseName, if_pos hb]
      exact hk1
    refine ⟨Or.inr ⟨hb, k, hk2, hcn, hk3, hk4⟩, ?_⟩
    rw [hcn]
    exact hk3
  · have hcn : chooseName base taken = base := by simp [chooseName, hb]
    exact ⟨Or.inl ⟨hb, hcn⟩, by rw [hcn]; exact hb⟩

theorem assignNames_length : ∀ (stems taken : List String),
    (assignNames stems taken).length = stems.length := by
  intro stems
  induction stems with
  | nil => intro taken; rfl
  | cons s rest ih => intro taken; simp [assignNames, ih]

theorem assignNames_not_mem_taken :
    ∀ (stems taken : List String) (x : String), x ∈ assignNames stems taken → x ∉ taken := by
  intro stems
  induction stems with
  | nil => intro taken x hx; simp [assignNames] at hx
  | cons s rest ih =>
    intro taken x hx
    simp only [assignNames, List.mem_cons] at hx
    rcases hx with rfl | hx
    · exact (chooseName_spec s taken).2
    · intro hmem
      exact ih (taken ++ [chooseName s taken]) x hx (by simp [hmem])

theorem assignNames_nodup : ∀ (stems taken : List String), (assignNames stems taken).Nodup := by
  intro stems
  induction stems with
  | nil => intro taken; simp [assignNames]
  | cons s rest ih =>
    intro taken
    simp only [assignNames, List.nodup_cons]
    refine ⟨?_, ih _⟩
    intro hmem
    exact assignNames_not_mem_taken rest (taken ++ [chooseName s taken]) _ hmem (by simp)

theorem assignNames_get :
    ∀ (stems taken : List String) (i : Nat) (p : String),
      stems[i]? = some p →
      (assignNames stems taken)[i]? =
        some (chooseName p (taken ++ (assignNames stems taken).take i)) := by
  intro stems
  induction stems with
  | nil => intro taken i p hp; simp at hp
  | cons s rest ih =>
    intro taken i p hp
    cases i with
    | zero =>
      rw [List.getElem?_cons_zero] at hp
      obtain rfl := Option.some.inj hp
      simp [assignNames, List.append_nil]
    | succ j =>
      have hp' : rest[j]? = some p := by simpa using hp
      simp only [assignNames]
      rw [List.getElem?_cons_succ, List.take_succ_cons,
        ih (taken ++ [chooseName s taken]) j p hp', List.append_assoc]
      rfl

/-- C5 (amended): each data source is bound under its file stem when that
stem is not already bound; a colliding source receives the stem suffixed
with the smallest positive counter whose suffixed name is not already
bound in this invocation (which is _1, _2, ... in input order when no
other source's name occupies those suffixed forms), and the bound relation
names are unique within the invocation. -/
theorem c5_relation_naming (paths : List String) (i : Nat) (h : i < paths.length) :
    NamesOutcome paths i := by
  have hlen : (tableNamesFor paths).length = paths.length := by
    rw [show tableNamesFor paths = assignNames (paths.map pathStem) [] from rfl,
      assignNames_length, List.length_map]
  refine ⟨hlen, assignNames_nodup _ _, ?_⟩
  have hp : ∃ p, paths[i]? = some p := by
    rw [List.getElem?_eq_getElem h]
    exact ⟨_, rfl⟩
  obtain ⟨p, hp⟩ := hp
  have hsp : (paths.map pathStem)[i]? = some (pathStem p) := by
    rw [List.getElem?_map, hp]
    rfl
  have hn := assignNames_get (paths.map pathStem) [] i (pathStem p) hsp
  rw [List.nil_append] at hn
  exact ⟨p, chooseName (pathStem p) ((tableNamesFor paths).take i), hp, hn,
    (chooseName_spec _ _).1⟩

/-- C5 counterexample: binding events_1.parquet, events.parquet and
events.parquet gives the second duplicate of the stem events the name
events_2, not events_1 as the claim's suffix-in-duplicate-order rule
demands (events_1 is occupied by the first file's stem). -/
theorem c5_counterexample :
    tableNamesFor ["events_1.parquet", "events.parquet", "events.parquet"] =
      ["events_1", "events", "events_2"] ∧
    ("events_2" : String) ≠ "events_1" := by
  exact ⟨by decide, by decide⟩

/-- C5 witness: binding the same file name twice yields the stem and the
stem suffixed _1, unique within the invocation. -/
theorem c5_witness :
    (1 : Nat) < (["events.parquet", "events.parquet"] : List String).length ∧
    NamesOutcome ["events.parquet", "events.parquet"] 1 ∧
    tableNamesFor ["events.parquet", "events.parquet"] = ["events", "events_1"] :=
  ⟨by decide, c5_relation_naming ["events.parquet", "events.parquet"] 1 (by decide), by decide⟩

end RcaTools
